import Mathlib

/-
Verification development for the check-extraction utility.

The program (src/agents/check_extraction_agent.py and src/main.py) extracts a
payee name and a check number from OCR text with regular expressions, sanitizes
the payee for use in a filename, and renames the source file.

Modelling conventions:
- Texts and strings are `List Char` (Python `str` is an immutable char sequence).
- Each regular expression of the source is embedded as an explicit scanning
  function with Python `re` semantics (leftmost match, greedy quantifiers with
  backtracking where the concrete pattern needs it, IGNORECASE via ASCII
  lowercasing, MULTILINE end-of-line).
- Character classes (\w, \s, \d) follow Python's Unicode-aware `str` semantics
  exactly on the Latin-1 range (code points up to 255); code points above 255
  are classified as non-members.  No theorem below depends on the
  classification above 255.
- The filesystem is a state: an association list from paths to their OCR text
  plus a set of existing directories.  The OCR engine (external Text Source
  collaborator) is modelled as the lookup of a file's text.
-/

/-! ## Character classes -/

/-- Python `\s` (whitespace) on the Latin-1 range: space, tab, LF, VT, FF, CR,
FS, GS, RS, US, NEL (U+0085) and NBSP (U+00A0). -/
def pySpace (c : Char) : Bool :=
  c.toNat == 32 || c.toNat == 9 || c.toNat == 10 || c.toNat == 11 ||
  c.toNat == 12 || c.toNat == 13 || c.toNat == 28 || c.toNat == 29 ||
  c.toNat == 30 || c.toNat == 31 || c.toNat == 133 || c.toNat == 160

/-- ASCII letter, the class `[A-Za-z]`. -/
def asciiAlpha (c : Char) : Bool :=
  (decide (65 ≤ c.toNat) && decide (c.toNat ≤ 90)) ||
  (decide (97 ≤ c.toNat) && decide (c.toNat ≤ 122))

/-- Python `\d` on the Latin-1 range: the decimal digits `[0-9]` (no Latin-1
character above ASCII is in Unicode category Nd). -/
def asciiDigit (c : Char) : Bool :=
  decide (48 ≤ c.toNat) && decide (c.toNat ≤ 57)

/-- Python `\w` (word character) on the Latin-1 range: ASCII alphanumerics,
underscore, and the Latin-1 letters and numeric signs
(ordinal indicators U+00AA/U+00BA, micro sign U+00B5, superscripts
U+00B2/U+00B3/U+00B9, fractions U+00BC/U+00BD/U+00BE, and U+00C0..U+00FF
except multiplication U+00D7 and division U+00F7). -/
def isWordChar (c : Char) : Bool :=
  asciiAlpha c || asciiDigit c || c.toNat == 95 ||
  c.toNat == 170 || c.toNat == 178 || c.toNat == 179 || c.toNat == 181 ||
  c.toNat == 185 || c.toNat == 186 || c.toNat == 188 || c.toNat == 189 ||
  c.toNat == 190 ||
  (decide (192 ≤ c.toNat) && decide (c.toNat ≤ 255) &&
   !(c.toNat == 215) && !(c.toNat == 247))

/-- Class `[:\s]` used between the anchor label and the captured value. -/
def colonWs (c : Char) : Bool := c.toNat == 58 || pySpace c

/-- Class `[A-Za-z\s]` of the payee capture group. -/
def payeeClass (c : Char) : Bool := asciiAlpha c || pySpace c

/-- Case-insensitive character comparison used for re.IGNORECASE on the ASCII
pattern literals of the source. -/
def lowerEq (a b : Char) : Bool := a.toLower == b.toLower

/-- Convenience: the character list of a string literal. -/
def strL (s : String) : List Char := s.data

/-! ## Generic matcher pieces -/

/-- Match a literal word case-insensitively at the head of the input, returning
the remaining input. -/
def matchLitCI : List Char → List Char → Option (List Char)
  | [], cs => some cs
  | _ :: _, [] => none
  | w :: ws, c :: cs => if lowerEq c w then matchLitCI ws cs else none

/-- Match `\s+` (greedy): at least one whitespace character, then the maximal
whitespace run.  In every pattern of the source the character after `\s+` is a
letter, so maximal munch is exact. -/
def matchWs1 : List Char → Option (List Char)
  | [] => none
  | c :: cs => if pySpace c then some (cs.dropWhile pySpace) else none

/-- Match `[:\s]+` (greedy): in pattern 4 of the check-number list the next
token is `\d`, never in `[:\s]`, so maximal munch is exact. -/
def matchColonWs1 : List Char → Option (List Char)
  | [] => none
  | c :: cs => if colonWs c then some (cs.dropWhile colonWs) else none

/-! ## Payee extraction (CheckExtractionAgent._parse_writer_name) -/

/-- Backtracking helper for `[:\s]+([A-Za-z\s]+)`: the largest index n with
1 ≤ n into the consumed `[:\s]` run at which the capture group may start
instead (the group's first character must be in `[A-Za-z\s]`). -/
def btIndex (run : List Char) : Option Nat :=
  (List.range run.length).reverse.find?
    (fun n => decide (1 ≤ n) && payeeClass (run.getD n ':'))

/-- Match the tail `[:\s]+([A-Za-z\s]+)` of both payee patterns, returning the
captured group.  Greedy `[:\s]+` first consumes the maximal `[:\s]` run; if the
next character cannot start the group, Python backtracks, releasing trailing
run characters (necessarily whitespace, which is in the group class) until the
group can start inside the released part. -/
def matchPayeeTail (cs : List Char) : Option (List Char) :=
  let run := cs.takeWhile colonWs
  let rest := cs.dropWhile colonWs
  if run.isEmpty then none
  else if rest.head?.elim false payeeClass then some (rest.takeWhile payeeClass)
  else
    match btIndex run with
    | some n => some ((run.drop n ++ rest).takeWhile payeeClass)
    | none => none

/-- Match the regex `Pay\s+to\s+the\s+order\s+of[:\s]+([A-Za-z\s]+)` at the
start of the input (IGNORECASE), returning the capture.  The source's first
two payee patterns are this same regex (they differ only in the letter case of
their literals, erased by re.IGNORECASE). -/
def matchPay1At (cs : List Char) : Option (List Char) :=
  (matchLitCI ['p', 'a', 'y'] cs).bind fun r1 =>
  (matchWs1 r1).bind fun r2 =>
  (matchLitCI ['t', 'o'] r2).bind fun r3 =>
  (matchWs1 r3).bind fun r4 =>
  (matchLitCI ['t', 'h', 'e'] r4).bind fun r5 =>
  (matchWs1 r5).bind fun r6 =>
  (matchLitCI ['o', 'r', 'd', 'e', 'r'] r6).bind fun r7 =>
  (matchWs1 r7).bind fun r8 =>
  (matchLitCI ['o', 'f'] r8).bind fun r9 =>
  matchPayeeTail r9

/-- Match the regex `Payable\s+to[:\s]+([A-Za-z\s]+)` at the start of the
input (IGNORECASE), returning the capture. -/
def matchPayableAt (cs : List Char) : Option (List Char) :=
  (matchLitCI ['p', 'a', 'y', 'a', 'b', 'l', 'e'] cs).bind fun r1 =>
  (matchWs1 r1).bind fun r2 =>
  (matchLitCI ['t', 'o'] r2).bind fun r3 =>
  matchPayeeTail r3

/-- re.search for the first payee pattern: try the match at each position from
the left, returning the first capture. -/
def searchPay1 : List Char → Option (List Char)
  | [] => none
  | c :: cs =>
    match matchPay1At (c :: cs) with
    | some cap => some cap
    | none => searchPay1 cs

/-- re.search for the third payee pattern (`Payable to`). -/
def searchPayable : List Char → Option (List Char)
  | [] => none
  | c :: cs =>
    match matchPayableAt (c :: cs) with
    | some cap => some cap
    | none => searchPayable cs

/-- Python str.strip(): remove leading and trailing whitespace. -/
def pyStrip (l : List Char) : List Char :=
  ((l.dropWhile pySpace).reverse.dropWhile pySpace).reverse

/-- Embedding of `re.sub` with the whitespace-run regex replacing each maximal
`\s+` run by a single space (the flag records an open run). -/
def collapseSpaceAux : Bool → List Char → List Char
  | _, [] => []
  | inRun, c :: cs =>
    if pySpace c then
      if inRun then collapseSpaceAux true cs
      else ' ' :: collapseSpaceAux true cs
    else c :: collapseSpaceAux false cs

/-- Python str.title() on the ASCII range: the first letter of each maximal
letter run is uppercased, the rest lowercased.  (The source only titles regex
captures from `[A-Za-z\s]+`, which are ASCII.) -/
def titleAux : Bool → List Char → List Char
  | _, [] => []
  | prevCased, c :: cs =>
    if asciiAlpha c then
      (if prevCased then c.toLower else c.toUpper) :: titleAux true cs
    else c :: titleAux false cs

/-- Post-processing of the captured payee group, lines 154-157 of the agent:
strip, collapse internal whitespace runs to single spaces, title-case. -/
def postprocessName (cap : List Char) : List Char :=
  titleAux false (collapseSpaceAux false (pyStrip cap))

/-- CheckExtractionAgent._parse_writer_name: try the three payee patterns in
order with re.search; on the first match return the post-processed capture.
The second pattern is the first one written in capitals, identical under
IGNORECASE, hence the repeated search. -/
def parse_writer_name (text : List Char) : Option (List Char) :=
  match searchPay1 text with
  | some cap => some (postprocessName cap)
  | none =>
    match searchPay1 text with
    | some cap => some (postprocessName cap)
    | none =>
      match searchPayable text with
      | some cap => some (postprocessName cap)
      | none => none

/-! ## Check-number extraction (CheckExtractionAgent._parse_check_number) -/

/-- Match `No\.?\s*[:\s]*(\d{3,6})` at the start of the input, returning the
capture and the input after the match end.  Greedy `\.?` then `\s*[:\s]*`
consume the optional dot and then the maximal `[:\s]` run (first spaces, then
colons-or-spaces, which together is exactly the maximal `[:\s]` run); `\d{3,6}`
needs at least 3 digits and takes at most 6, and no backtracking into the
separator classes can produce a digit, so maximal munch is exact. -/
def matchP1At (cs : List Char) : Option (List Char × List Char) :=
  match matchLitCI ['n', 'o'] cs with
  | none => none
  | some r1 =>
    let r2 := if r1.head? == some '.' then r1.tail else r1
    let r3 := r2.dropWhile colonWs
    let run := r3.takeWhile asciiDigit
    if 3 ≤ run.length then
      some (run.take 6, r3.drop (run.take 6).length)
    else none

/-- Match `Check\s*#?\s*[:\s]*(\d{3,6})` at the start of the input. -/
def matchP2At (cs : List Char) : Option (List Char × List Char) :=
  match matchLitCI ['c', 'h', 'e', 'c', 'k'] cs with
  | none => none
  | some r1 =>
    let r2 := r1.dropWhile pySpace
    let r3 := if r2.head? == some '#' then r2.tail else r2
    let r4 := r3.dropWhile colonWs
    let run := r4.takeWhile asciiDigit
    if 3 ≤ run.length then
      some (run.take 6, r4.drop (run.take 6).length)
    else none

/-- Largest index of a newline in a whitespace run (for the greedy `\s*`
before a MULTILINE `$`). -/
def lastNlIdx (r : List Char) : Option Nat :=
  (List.range r.length).reverse.find? (fun i => r.getD i ' ' == '\n')

/-- Match `\s*$` (MULTILINE) greedily: `$` holds at the end of the input or
just before a newline.  Returns the input after the match end, or none. -/
def eolConsume (cs : List Char) : Option (List Char) :=
  let r := cs.takeWhile pySpace
  let rest := cs.dropWhile pySpace
  if rest.isEmpty then some []
  else
    match lastNlIdx r with
    | some i => some (r.drop i ++ rest)
    | none => none

/-- Match `#?\s*(\d{3,6})\s*$` (MULTILINE) at the start of the input.  The
digit run at the capture position must have length 3..6 exactly: a shorter
capture would leave a digit before `\s*$`, and a run longer than 6 leaves a
digit after any allowed capture, so the pattern fails on it. -/
def matchP3At (cs : List Char) : Option (List Char × List Char) :=
  let cs1 := if cs.head? == some '#' then cs.tail else cs
  let cs2 := cs1.dropWhile pySpace
  let run := cs2.takeWhile asciiDigit
  if 3 ≤ run.length ∧ run.length ≤ 6 then
    match eolConsume (cs2.drop run.length) with
    | some rest => some (run, rest)
    | none => none
  else none

/-- Match `Check\s+Number[:\s]+(\d{3,6})` at the start of the input. -/
def matchP4At (cs : List Char) : Option (List Char × List Char) :=
  (matchLitCI ['c', 'h', 'e', 'c', 'k'] cs).bind fun r1 =>
  (matchWs1 r1).bind fun r2 =>
  (matchLitCI ['n', 'u', 'm', 'b', 'e', 'r'] r2).bind fun r3 =>
  (matchColonWs1 r3).bind fun r4 =>
    let run := r4.takeWhile asciiDigit
    if 3 ≤ run.length then
      some (run.take 6, r4.drop (run.take 6).length)
    else none

/-- re.findall: scan left to right, collecting the captures of non-overlapping
matches; on failure advance one position, on success continue after the match
end.  Fuel bounds the recursion; every matcher of the source consumes at least
one character, so fuel `length + 1` is never exhausted. -/
def findallAux (m : List Char → Option (List Char × List Char)) :
    Nat → List Char → List (List Char)
  | 0, _ => []
  | fuel + 1, cs =>
    match m cs with
    | some (cap, rest) => cap :: findallAux m fuel rest
    | none =>
      match cs with
      | [] => []
      | _ :: t => findallAux m fuel t

/-- All captures of the `No.` pattern in the text. -/
def findallP1 (text : List Char) : List (List Char) :=
  findallAux matchP1At (text.length + 1) text

/-- All captures of the `Check #` pattern in the text. -/
def findallP2 (text : List Char) : List (List Char) :=
  findallAux matchP2At (text.length + 1) text

/-- All captures of the end-of-line pattern in the text. -/
def findallP3 (text : List Char) : List (List Char) :=
  findallAux matchP3At (text.length + 1) text

/-- All captures of the `Check Number` pattern in the text. -/
def findallP4 (text : List Char) : List (List Char) :=
  findallAux matchP4At (text.length + 1) text

/-- Word-boundary test after a digit run: end of input or a non-word
character. -/
def boundaryAfter (rest : List Char) : Bool :=
  match rest.head? with
  | none => true
  | some c => !isWordChar c

/-- Scan for `\b\d{3,6}\b` (re.findall, no group: full matches).  The flag
records whether a word boundary precedes the current position (start of text
or previous character non-word).  A match requires a maximal digit run of
length 3..6 here, with word boundaries on both sides; a longer run or a word
character adjacent to the run admits no match anywhere inside the run. -/
def isolatedAux : Nat → Bool → List Char → List (List Char)
  | 0, _, _ => []
  | _ + 1, _, [] => []
  | fuel + 1, atBoundary, c :: t =>
    let run := (c :: t).takeWhile asciiDigit
    if atBoundary ∧ 3 ≤ run.length ∧ run.length ≤ 6 ∧
        boundaryAfter ((c :: t).drop run.length) then
      run :: isolatedAux fuel false ((c :: t).drop run.length)
    else
      isolatedAux fuel (!isWordChar c) t

/-- All isolated 3-6 digit runs of the text (the fallback's candidate list,
line 181 of the agent). -/
def findIsolated (text : List Char) : List (List Char) :=
  isolatedAux (text.length + 1) true text

/-- Inner loop of lines 176-178: the first capture with at least 3 digits. -/
def firstCap3 (caps : List (List Char)) : Option (List Char) :=
  caps.find? (fun m => decide (3 ≤ m.length))

/-- CheckExtractionAgent._parse_check_number: the four labeled/end-of-line
patterns in order, each via re.findall filtered to captures of length at least
3; then the unlabeled fallback filtered to lengths 4..6. -/
def parse_check_number (text : List Char) : Option (List Char) :=
  match firstCap3 (findallP1 text) with
  | some m => some m
  | none =>
    match firstCap3 (findallP2 text) with
    | some m => some m
    | none =>
      match firstCap3 (findallP3 text) with
      | some m => some m
      | none =>
        match firstCap3 (findallP4 text) with
        | some m => some m
        | none =>
          (findIsolated text).find?
            (fun n => decide (4 ≤ n.length) && decide (n.length ≤ 6))

/-! ## Filename sanitizer (lines 229-231 of the agent) -/

/-- Characters kept by `re.sub` with the class complementing
word-or-space-or-hyphen: word characters, whitespace, and the hyphen. -/
def keepChar (c : Char) : Bool := isWordChar c || pySpace c || c.toNat == 45

/-- Embedding of `re.sub` with the whitespace-run regex replacing each maximal
`\s+` run by a single underscore. -/
def underscoreAux : Bool → List Char → List Char
  | _, [] => []
  | inRun, c :: cs =>
    if pySpace c then
      if inRun then underscoreAux true cs
      else '_' :: underscoreAux true cs
    else c :: underscoreAux false cs

/-- Python str.strip with an underscore argument: remove leading and trailing
underscores. -/
def stripUnderscores (l : List Char) : List Char :=
  ((l.dropWhile (fun c => c == '_')).reverse.dropWhile (fun c => c == '_')).reverse

/-- The filename sanitizer: drop characters outside word/whitespace/hyphen,
collapse whitespace runs to single underscores, trim underscores. -/
def sanitize (writer : List Char) : List Char :=
  stripUnderscores (underscoreAux false (writer.filter keepChar))

/-! ## Filesystem model and the rename orchestrator -/

/-- A file path: its directory and its final component. -/
structure FsPath where
  dir : List Char
  base : List Char
deriving DecidableEq

/-- Filesystem state: files (with the OCR text the Text Source would produce
for them) and existing directories. -/
structure FSState where
  files : List (FsPath × List Char)
  dirs : List (List Char)
deriving DecidableEq

/-- Does a file exist at the path? -/
def FSState.existsFile (fs : FSState) (p : FsPath) : Bool :=
  (fs.files.find? (fun e => e.1 == p)).isSome

/-- The OCR text of the file at the path (the Text Source collaborator). -/
def FSState.readText (fs : FSState) (p : FsPath) : List Char :=
  match fs.files.find? (fun e => e.1 == p) with
  | some e => e.2
  | none => []

/-- Path.rename: the file leaves the source path and appears at the target
path (silently replacing a file already there, as the POSIX primitive does). -/
def FSState.moveFile (fs : FSState) (src dst : FsPath) : FSState :=
  ⟨(dst, fs.readText src) :: fs.files.filter (fun e => !(e.1 == src) && !(e.1 == dst)),
   fs.dirs⟩

/-- Path.mkdir with parents and exist_ok: ensure the directory exists. -/
def FSState.mkdirp (fs : FSState) (d : List Char) : FSState :=
  if d ∈ fs.dirs then fs else ⟨fs.files, d :: fs.dirs⟩

/-- Python pathlib suffix of a final path component: from the last dot, when
that dot is neither the first nor the last character; empty otherwise. -/
def rfindIdx (c : Char) (l : List Char) : Option Nat :=
  (List.range l.length).reverse.find? (fun i => l[i]? == some c)

/-- File extension of a path's final component, dot included. -/
def suffixOf (base : List Char) : List Char :=
  match rfindIdx '.' base with
  | some i => if 0 < i ∧ i < base.length - 1 then base.drop i else []
  | none => []

/-- Python truthiness of an optional string: false for None and for the empty
string (the source tests `not writer_name or not check_number`). -/
def falsyStr : Option (List Char) → Bool
  | none => true
  | some s => s.isEmpty

/-- Errors of the rename orchestrator.  `missingFields` carries the two
extracted optional fields, as the source's ValueError message interpolates
both of them. -/
inductive RenameError where
  | notFound
  | missingFields (writer : Option (List Char)) (check : Option (List Char))
deriving DecidableEq

/-- Final path component of the renamed file: the sanitized writer name, an
underscore, the check number and the original extension. -/
def renameBase (fs : FSState) (p : FsPath) : List Char :=
  sanitize ((parse_writer_name (fs.readText p)).getD []) ++
    '_' :: ((parse_check_number (fs.readText p)).getD [] ++ suffixOf p.base)

/-- CheckExtractionAgent.rename_check_file: check existence, extract both
fields, fail if either is falsy, sanitize the writer name, build
writer_checknumber.ext, place it in the output directory (created first) or
beside the source, and move the file. -/
def rename_check_file (fs : FSState) (p : FsPath) (outputDir : Option (List Char)) :
    FSState × Except RenameError FsPath :=
  if fs.existsFile p = false then (fs, Except.error RenameError.notFound)
  else if falsyStr (parse_writer_name (fs.readText p)) ||
          falsyStr (parse_check_number (fs.readText p)) then
    (fs, Except.error (RenameError.missingFields (parse_writer_name (fs.readText p))
                                                 (parse_check_number (fs.readText p))))
  else
    match outputDir with
    | some d =>
      ((fs.mkdirp d).moveFile p ⟨d, renameBase fs p⟩, Except.ok ⟨d, renameBase fs p⟩)
    | none =>
      (fs.moveFile p ⟨p.dir, renameBase fs p⟩, Except.ok ⟨p.dir, renameBase fs p⟩)

/-! ## CLI surface (src/main.py) -/

/-- main.py extract_and_rename_check: extract first (a missing file or missing
fields raise, caught by the handler which prints the error and returns None),
then call the agent's rename. -/
def extract_and_rename_check (fs : FSState) (p : FsPath) (outputDir : Option (List Char)) :
    FSState × Option FsPath :=
  if fs.existsFile p = false then (fs, none)
  else if falsyStr (parse_writer_name (fs.readText p)) ||
          falsyStr (parse_check_number (fs.readText p)) then
    (fs, none)
  else
    match rename_check_file fs p outputDir with
    | (fs2, Except.ok t) => (fs2, some t)
    | (fs2, Except.error _) => (fs2, none)

/-- Split a CLI path argument into directory and final component. -/
def parsePath (s : List Char) : FsPath :=
  match rfindIdx '/' s with
  | some i => ⟨s.take i, s.drop (i + 1)⟩
  | none => ⟨['.'], s⟩

/-- Value following the first `--output-dir` flag, when present. -/
def argOutputDir (argv : List (List Char)) : Option (List Char) :=
  match argv.indexOf? (strL "--output-dir") with
  | some i => if i + 1 < argv.length then some (argv.getD (i + 1) []) else none
  | none => none

/-- main.py main(): exit 1 when no file argument is given; otherwise run
extract_and_rename_check (whose errors are caught and printed inside it) and
fall off the end of main, which exits 0.  Returns (exit code, filesystem). -/
def mainFn (argv : List (List Char)) (fs : FSState) : Nat × FSState :=
  if argv.length < 2 then (1, fs)
  else
    let p := parsePath (argv.getD 1 [])
    let fs2 := (extract_and_rename_check fs p (argOutputDir argv)).1
    (0, fs2)

/-! ## Basic character lemmas -/

theorem charToNat_ofNat (n : Nat) (h : n < 55296) : (Char.ofNat n).toNat = n := by
  have hv : Nat.isValidChar n := Or.inl h
  simp only [Char.ofNat, hv, dite_true, Char.ofNatAux, Char.toNat]
  rfl

theorem charEq_of_toNat {c d : Char} (h : c.toNat = d.toNat) : c = d := by
  apply Char.ext
  exact UInt32.toNat.inj h

theorem toNat_toLower (c : Char) :
    (Char.toLower c).toNat = if 65 ≤ c.toNat ∧ c.toNat ≤ 90 then c.toNat + 32 else c.toNat := by
  unfold Char.toLower
  split
  · next hc =>
    rw [if_pos (by omega)]
    exact charToNat_ofNat _ (by omega)
  · next hc =>
    rw [if_neg (by omega)]

theorem toNat_toUpper (c : Char) :
    (Char.toUpper c).toNat = if 97 ≤ c.toNat ∧ c.toNat ≤ 122 then c.toNat - 32 else c.toNat := by
  unfold Char.toUpper
  split
  · next hc =>
    rw [if_pos (by omega)]
    exact charToNat_ofNat _ (by omega)
  · next hc =>
    rw [if_neg (by omega)]

theorem toLower_idem (c : Char) : (Char.toLower c).toLower = c.toLower := by
  apply charEq_of_toNat
  rw [toNat_toLower, toNat_toLower]
  split_ifs <;> omega

theorem toUpper_toLower (c : Char) : (Char.toLower c).toUpper = c.toUpper := by
  apply charEq_of_toNat
  rw [toNat_toUpper, toNat_toLower, toNat_toUpper]
  by_cases h : 65 ≤ c.toNat ∧ c.toNat ≤ 90
  · rw [if_pos h, if_pos (by omega), if_neg (by omega)]
    omega
  · rw [if_neg h]

/-! ## Helper lemmas on the model -/

theorem falsyStr_false {o : Option (List Char)} (h : falsyStr o = false) :
    ∃ w, o = some w ∧ w ≠ [] := by
  cases o with
  | none => simp [falsyStr] at h
  | some s =>
    refine ⟨s, rfl, ?_⟩
    simp only [falsyStr] at h
    simpa [List.isEmpty_iff] using h

theorem mkdirp_mem (fs : FSState) (d : List Char) : d ∈ (fs.mkdirp d).dirs := by
  unfold FSState.mkdirp
  split
  · assumption
  · exact List.mem_cons_self _ _

theorem moveFile_dirs (fs : FSState) (src dst : FsPath) :
    (fs.moveFile src dst).dirs = fs.dirs := rfl

/-! ## Claim C4 -/

/-- C4 (confirmed): calling rename on a sourcePath with no existing file fails
with the NotFound error and performs no filesystem mutation (the state is
returned unchanged); the existence test is the first step of the function, so
no extraction or other work happens first. -/
theorem c4_rename_notFound (fs : FSState) (p : FsPath) (od : Option (List Char))
    (h : fs.existsFile p = false) :
    rename_check_file fs p od = (fs, Except.error RenameError.notFound) := by
  unfold rename_check_file
  rw [if_pos h]

/-- Witness for C4 at the empty filesystem. -/
theorem c4_rename_notFound_witness :
    FSState.existsFile ⟨[], []⟩ ⟨strL ".", strL "check.jpg"⟩ = false ∧
    rename_check_file ⟨[], []⟩ ⟨strL ".", strL "check.jpg"⟩ none
      = (⟨[], []⟩, Except.error RenameError.notFound) :=
  ⟨by decide, c4_rename_notFound _ _ _ (by decide)⟩

/-! ## Claim C3 -/

/-- C3 (confirmed): when the file exists but the extracted payee or check
number (or both) is absent, rename fails with the missing-fields error, which
carries both extracted fields (the ValueError message interpolates both, so it
reports which are missing), and the filesystem is returned unchanged - the
source file stays at its path and no partial rename happens. -/
theorem c3_rename_missingFields (fs : FSState) (p : FsPath) (od : Option (List Char))
    (hex : fs.existsFile p = true)
    (h : parse_writer_name (fs.readText p) = none ∨ parse_check_number (fs.readText p) = none) :
    rename_check_file fs p od =
      (fs, Except.error (RenameError.missingFields (parse_writer_name (fs.readText p))
                                                   (parse_check_number (fs.readText p)))) := by
  unfold rename_check_file
  rw [if_neg (by simp [hex])]
  have hf : (falsyStr (parse_writer_name (fs.readText p)) ||
             falsyStr (parse_check_number (fs.readText p))) = true := by
    rcases h with h | h <;> simp [h, falsyStr]
  rw [if_pos hf]

/-- Witness for C3: a file whose OCR text has neither field. -/
theorem c3_rename_missingFields_witness :
    FSState.existsFile ⟨[(⟨strL ".", strL "check.jpg"⟩, strL "hello")], [strL "."]⟩
        ⟨strL ".", strL "check.jpg"⟩ = true ∧
    rename_check_file ⟨[(⟨strL ".", strL "check.jpg"⟩, strL "hello")], [strL "."]⟩
        ⟨strL ".", strL "check.jpg"⟩ none
      = (⟨[(⟨strL ".", strL "check.jpg"⟩, strL "hello")], [strL "."]⟩,
         Except.error (RenameError.missingFields none none)) := by
  refine ⟨by decide, ?_⟩
  have h := c3_rename_missingFields ⟨[(⟨strL ".", strL "check.jpg"⟩, strL "hello")], [strL "."]⟩
    ⟨strL ".", strL "check.jpg"⟩ none (by decide) (Or.inl (by decide))
  rw [show parse_writer_name (FSState.readText ⟨[(⟨strL ".", strL "check.jpg"⟩, strL "hello")],
        [strL "."]⟩ ⟨strL ".", strL "check.jpg"⟩) = none by decide] at h
  rw [show parse_check_number (FSState.readText ⟨[(⟨strL ".", strL "check.jpg"⟩, strL "hello")],
        [strL "."]⟩ ⟨strL ".", strL "check.jpg"⟩) = none by decide] at h
  exact h

/-! ## Claim C9 -/

/-- C9 counterexample: with a file argument naming no existing file, the run
hits a processing error (NotFound, caught inside extract_and_rename_check,
which returns None), yet main exits with code 0, not 1. -/
theorem c9_error_exit_cex :
    (extract_and_rename_check ⟨[], []⟩ (parsePath (strL "missing.jpg")) none).2 = none ∧
    (mainFn [strL "main.py", strL "missing.jpg"] ⟨[], []⟩).1 = 0 := by decide

/-- C9 (corrected): the CLI exits with code 1 exactly when fewer than two
argv entries are present (missing file argument); otherwise it exits 0
regardless of the processing outcome, because extract_and_rename_check
catches every processing error, prints it and returns None, and main never
turns that into a nonzero exit code. -/
theorem c9_exit_code (argv : List (List Char)) (fs : FSState) :
    (mainFn argv fs).1 = if argv.length < 2 then 1 else 0 := by
  unfold mainFn
  split
  · rfl
  · rfl

/-! ## Claim C2 -/

/-- C2 counterexample: the text has no labeled check-number field (patterns 1,
2 and 4 produce no capture) and its only digit content is the single isolated
3-digit run 123, yet find_check_number returns 123, not absent: the isolated
number sits at the end of a line, so the unlabeled end-of-line pattern
captures it before the fallback's 4-6 length filter is ever consulted. -/
theorem c2_three_digit_cex :
    findallP1 (strL "sum 123") = [] ∧ findallP2 (strL "sum 123") = [] ∧
    findallP4 (strL "sum 123") = [] ∧
    findIsolated (strL "sum 123") = [strL "123"] ∧
    parse_check_number (strL "sum 123") = some (strL "123") := by decide

/-- C2 (corrected): for text on which none of the four regex patterns -
labeled or end-of-line - produces a capture (in particular, no labeled field
and the number not at the end of a line), and whose isolated digit runs all
have exactly 3 digits, find_check_number returns absent: the fallback keeps
only runs of length 4 to 6. -/
theorem c2_isolated_three_digit (text : List Char)
    (h1 : firstCap3 (findallP1 text) = none)
    (h2 : firstCap3 (findallP2 text) = none)
    (h3 : firstCap3 (findallP3 text) = none)
    (h4 : firstCap3 (findallP4 text) = none)
    (h5 : ∀ r ∈ findIsolated text, r.length = 3) :
    parse_check_number text = none := by
  unfold parse_check_number
  rw [h1, h2, h3, h4]
  apply List.find?_eq_none.mpr
  intro x hx
  simp [h5 x hx]

/-- Witness for C2 on a text whose 3-digit number is not at a line end. -/
theorem c2_isolated_three_digit_witness :
    firstCap3 (findallP1 (strL "ab 123 cd")) = none ∧
    firstCap3 (findallP2 (strL "ab 123 cd")) = none ∧
    firstCap3 (findallP3 (strL "ab 123 cd")) = none ∧
    firstCap3 (findallP4 (strL "ab 123 cd")) = none ∧
    (∀ r ∈ findIsolated (strL "ab 123 cd"), r.length = 3) ∧
    parse_check_number (strL "ab 123 cd") = none :=
  ⟨by decide, by decide, by decide, by decide, by decide,
   c2_isolated_three_digit _ (by decide) (by decide) (by decide) (by decide) (by decide)⟩

/-! ## Claim C6 -/

/-- C6 counterexample: no labeled pattern matches the text, whose first
isolated run of 4-6 digits is 1234, but find_check_number returns 999: the
end-of-line pattern (which is not a labeled pattern) runs before the fallback
scan and captures the trailing 999. -/
theorem c6_fallback_cex :
    findallP1 (strL "1234 999") = [] ∧ findallP2 (strL "1234 999") = [] ∧
    findallP4 (strL "1234 999") = [] ∧
    (findIsolated (strL "1234 999")).find?
      (fun n => decide (4 ≤ n.length) && decide (n.length ≤ 6)) = some (strL "1234") ∧
    parse_check_number (strL "1234 999") = some (strL "999") := by decide

/-- C6 (corrected): when none of the four regex patterns - the labeled ones
and the end-of-line one - produces a capture, find_check_number scans the
whole text for isolated runs of 3-6 digits bounded by word boundaries and
returns the first such run whose length is between 4 and 6 inclusive. -/
theorem c6_fallback (text : List Char)
    (h1 : firstCap3 (findallP1 text) = none)
    (h2 : firstCap3 (findallP2 text) = none)
    (h3 : firstCap3 (findallP3 text) = none)
    (h4 : firstCap3 (findallP4 text) = none) :
    parse_check_number text =
      (findIsolated text).find? (fun n => decide (4 ≤ n.length) && decide (n.length ≤ 6)) := by
  unfold parse_check_number
  rw [h1, h2, h3, h4]

/-- Witness for C6, also the claim's particular case: a text containing only
an isolated 5-digit number and no labeled field yields that number. -/
theorem c6_fallback_witness :
    firstCap3 (findallP1 (strL "ab 12345 cd")) = none ∧
    firstCap3 (findallP2 (strL "ab 12345 cd")) = none ∧
    firstCap3 (findallP3 (strL "ab 12345 cd")) = none ∧
    firstCap3 (findallP4 (strL "ab 12345 cd")) = none ∧
    parse_check_number (strL "ab 12345 cd") = some (strL "12345") := by
  refine ⟨by decide, by decide, by decide, by decide, ?_⟩
  have h := c6_fallback (strL "ab 12345 cd") (by decide) (by decide) (by decide) (by decide)
  rw [h]
  decide

/-! ## Claim C5 -/

/-- C5 (confirmed): on a successful rename the target's final component is
the sanitized writer name, an underscore, the check number and the source
file's extension; its directory is the explicit output directory when one was
given and the source file's own directory otherwise; and when an output
directory was given, it exists in the resulting filesystem state (it was
created, before the move, if missing). -/
theorem c5_rename_target (fs : FSState) (p : FsPath) (od : Option (List Char))
    (fs2 : FSState) (t : FsPath)
    (h : rename_check_file fs p od = (fs2, Except.ok t)) :
    (∃ w n, parse_writer_name (fs.readText p) = some w ∧
            parse_check_number (fs.readText p) = some n ∧
            t.base = sanitize w ++ '_' :: (n ++ suffixOf p.base)) ∧
    t.dir = od.getD p.dir ∧
    (∀ d, od = some d → d ∈ fs2.dirs) := by
  unfold rename_check_file at h
  by_cases hex : fs.existsFile p = false
  · rw [if_pos hex] at h
    exact absurd (congrArg Prod.snd h) (by simp)
  · rw [if_neg hex] at h
    by_cases hf : (falsyStr (parse_writer_name (fs.readText p)) ||
                   falsyStr (parse_check_number (fs.readText p))) = true
    · rw [if_pos hf] at h
      exact absurd (congrArg Prod.snd h) (by simp)
    · rw [if_neg hf] at h
      have hff : (falsyStr (parse_writer_name (fs.readText p)) ||
                  falsyStr (parse_check_number (fs.readText p))) = false :=
        Bool.not_eq_true _ ▸ hf
      have hw : falsyStr (parse_writer_name (fs.readText p)) = false :=
        (Bool.or_eq_false_iff.mp hff).1
      have hn : falsyStr (parse_check_number (fs.readText p)) = false :=
        (Bool.or_eq_false_iff.mp hff).2
      obtain ⟨w, hw2, -⟩ := falsyStr_false hw
      obtain ⟨n, hn2, -⟩ := falsyStr_false hn
      refine ⟨⟨w, n, hw2, hn2, ?_⟩, ?_, ?_⟩
      · cases od with
        | none =>
          have ht := congrArg Prod.snd h
          simp only at ht
          cases ht
          simp [renameBase, hw2, hn2]
        | some d =>
          have ht := congrArg Prod.snd h
          simp only at ht
          cases ht
          simp [renameBase, hw2, hn2]
      · cases od with
        | none =>
          have ht := congrArg Prod.snd h
          simp only at ht
          cases ht
          rfl
        | some d =>
          have ht := congrArg Prod.snd h
          simp only at ht
          cases ht
          rfl
      · intro d hd
        subst hd
        have hfs := congrArg Prod.fst h
        simp only at hfs
        rw [← hfs]
        rw [moveFile_dirs]
        exact mkdirp_mem fs d

/-- Fixture for the C5 witness: one check file whose OCR text yields payee
John Smith and check number 1234. -/
def c5fs : FSState :=
  ⟨[(⟨strL "/checks", strL "img.png"⟩,
     strL "Pay to the order of: John Smith.\nCheck Number: 1234")], [strL "/checks"]⟩

/-- Witness for C5: the rename succeeds, the target is
/out/John_Smith_1234.png, and /out is in the resulting directory set. -/
theorem c5_rename_target_witness :
    (∃ w n, parse_writer_name (c5fs.readText ⟨strL "/checks", strL "img.png"⟩) = some w ∧
            parse_check_number (c5fs.readText ⟨strL "/checks", strL "img.png"⟩) = some n ∧
            (strL "John_Smith_1234.png")
              = sanitize w ++ '_' :: (n ++ suffixOf (strL "img.png"))) ∧
    (strL "/out") = (some (strL "/out")).getD (strL "/checks") ∧
    (∀ d, (some (strL "/out") : Option (List Char)) = some d →
       d ∈ (FSState.mk [(⟨strL "/out", strL "John_Smith_1234.png"⟩,
                strL "Pay to the order of: John Smith.\nCheck Number: 1234")]
                [strL "/out", strL "/checks"]).dirs) :=
  c5_rename_target c5fs ⟨strL "/checks", strL "img.png"⟩ (some (strL "/out"))
    (FSState.mk [(⟨strL "/out", strL "John_Smith_1234.png"⟩,
        strL "Pay to the order of: John Smith.\nCheck Number: 1234")]
        [strL "/out", strL "/checks"])
    ⟨strL "/out", strL "John_Smith_1234.png"⟩ rfl


/-! ## Claim C10 -/

/-- Unfolding step of the findall scan at zero fuel. -/
theorem findallAux_zero (m : List Char → Option (List Char × List Char)) (cs : List Char) :
    findallAux m 0 cs = [] := rfl

/-- Unfolding step of the findall scan at positive fuel. -/
theorem findallAux_succ (m : List Char → Option (List Char × List Char))
    (n : Nat) (cs : List Char) :
    findallAux m (n + 1) cs =
      match m cs with
      | some (cap, rest) => cap :: findallAux m n rest
      | none =>
        match cs with
        | [] => []
        | _ :: t => findallAux m n t := rfl

/-- Unfolding step of the isolated-number scan at positive fuel on a cons. -/
theorem isolatedAux_succ (n : Nat) (b : Bool) (c : Char) (t : List Char) :
    isolatedAux (n + 1) b (c :: t) =
      (if b ∧ 3 ≤ ((c :: t).takeWhile asciiDigit).length ∧
          ((c :: t).takeWhile asciiDigit).length ≤ 6 ∧
          boundaryAfter ((c :: t).drop ((c :: t).takeWhile asciiDigit).length)
       then (c :: t).takeWhile asciiDigit ::
            isolatedAux n false ((c :: t).drop ((c :: t).takeWhile asciiDigit).length)
       else isolatedAux n (!isWordChar c) t) := rfl

/-- Characters and length of a capture of the form take 6 of a digit run with
at least 3 digits. -/
theorem takeRun_spec (r : List Char) (h : 3 ≤ (r.takeWhile asciiDigit).length) :
    (∀ c ∈ (r.takeWhile asciiDigit).take 6, asciiDigit c = true) ∧
    3 ≤ ((r.takeWhile asciiDigit).take 6).length ∧
    ((r.takeWhile asciiDigit).take 6).length ≤ 6 := by
  refine ⟨?_, ?_, ?_⟩
  · intro c hc
    exact List.mem_takeWhile_imp (List.take_subset _ _ hc)
  · rw [List.length_take]
    omega
  · rw [List.length_take]
    omega

/-- Common tail of the three labeled check-number matchers: the conditional
producing the take-6 capture from a digit run. -/
theorem capTail_spec {r cap rest : List Char}
    (h : (if 3 ≤ (r.takeWhile asciiDigit).length then
            some ((r.takeWhile asciiDigit).take 6,
                  r.drop ((r.takeWhile asciiDigit).take 6).length)
          else none) = some (cap, rest)) :
    (∀ c ∈ cap, asciiDigit c = true) ∧ 3 ≤ cap.length ∧ cap.length ≤ 6 := by
  split at h
  · next hlen =>
    cases Option.some.inj h
    exact takeRun_spec _ hlen
  · exact absurd h (by simp)

/-- Common tail of the end-of-line matcher: a full digit run of length 3..6
followed by a successful end-of-line consumption. -/
theorem capTail3_spec {r cap rest : List Char}
    (h : (if 3 ≤ (r.takeWhile asciiDigit).length ∧ (r.takeWhile asciiDigit).length ≤ 6 then
            match eolConsume (r.drop (r.takeWhile asciiDigit).length) with
            | some rr => some (r.takeWhile asciiDigit, rr)
            | none => none
          else none) = some (cap, rest)) :
    (∀ c ∈ cap, asciiDigit c = true) ∧ 3 ≤ cap.length ∧ cap.length ≤ 6 := by
  split at h
  · next hlen =>
    split at h
    · next rr heq =>
      cases Option.some.inj h
      exact ⟨fun c hc2 => List.mem_takeWhile_imp hc2, hlen.1, hlen.2⟩
    · exact absurd h (by simp)
  · exact absurd h (by simp)

/-- Every capture of the No. pattern is a run of 3 to 6 digits. -/
theorem matchP1At_cap {cs cap rest : List Char} (h : matchP1At cs = some (cap, rest)) :
    (∀ c ∈ cap, asciiDigit c = true) ∧ 3 ≤ cap.length ∧ cap.length ≤ 6 := by
  unfold matchP1At at h
  cases hm : matchLitCI ['n', 'o'] cs with
  | none => rw [hm] at h; exact absurd h (by simp)
  | some r1 =>
    rw [hm] at h
    simp only at h
    exact capTail_spec h

/-- Every capture of the Check number-sign pattern is a run of 3 to 6
digits. -/
theorem matchP2At_cap {cs cap rest : List Char} (h : matchP2At cs = some (cap, rest)) :
    (∀ c ∈ cap, asciiDigit c = true) ∧ 3 ≤ cap.length ∧ cap.length ≤ 6 := by
  unfold matchP2At at h
  cases hm : matchLitCI ['c', 'h', 'e', 'c', 'k'] cs with
  | none => rw [hm] at h; exact absurd h (by simp)
  | some r1 =>
    rw [hm] at h
    simp only at h
    exact capTail_spec h

/-- Every capture of the end-of-line pattern is a run of 3 to 6 digits. -/
theorem matchP3At_cap {cs cap rest : List Char} (h : matchP3At cs = some (cap, rest)) :
    (∀ c ∈ cap, asciiDigit c = true) ∧ 3 ≤ cap.length ∧ cap.length ≤ 6 := by
  unfold matchP3At at h
  simp only at h
  exact capTail3_spec h

/-- Every capture of the Check Number pattern is a run of 3 to 6 digits. -/
theorem matchP4At_cap {cs cap rest : List Char} (h : matchP4At cs = some (cap, rest)) :
    (∀ c ∈ cap, asciiDigit c = true) ∧ 3 ≤ cap.length ∧ cap.length ≤ 6 := by
  unfold matchP4At at h
  cases h1 : matchLitCI ['c', 'h', 'e', 'c', 'k'] cs with
  | none => rw [h1] at h; exact absurd h (by simp)
  | some r1 =>
    rw [h1] at h
    simp only [Option.some_bind] at h
    cases h2 : matchWs1 r1 with
    | none => rw [h2] at h; exact absurd h (by simp)
    | some r2 =>
      rw [h2] at h
      simp only [Option.some_bind] at h
      cases h3 : matchLitCI ['n', 'u', 'm', 'b', 'e', 'r'] r2 with
      | none => rw [h3] at h; exact absurd h (by simp)
      | some r3 =>
        rw [h3] at h
        simp only [Option.some_bind] at h
        cases h4 : matchColonWs1 r3 with
        | none => rw [h4] at h; exact absurd h (by simp)
        | some r4 =>
          rw [h4] at h
          simp only [Option.some_bind] at h
          exact capTail_spec h

/-- Every capture collected by the findall scan satisfies any property that
every single-match capture of the matcher satisfies. -/
theorem findallAux_caps {m : List Char → Option (List Char × List Char)}
    (P : List Char → Prop)
    (hm : ∀ cs cap rest, m cs = some (cap, rest) → P cap) :
    ∀ fuel cs, ∀ cap ∈ findallAux m fuel cs, P cap := by
  intro fuel
  induction fuel with
  | zero =>
    intro cs cap hc
    rw [findallAux_zero] at hc
    simp at hc
  | succ n ih =>
    intro cs cap hc
    rw [findallAux_succ] at hc
    cases hmc : m cs with
    | some pr =>
      obtain ⟨c1, r1⟩ := pr
      rw [hmc] at hc
      simp only at hc
      rcases List.mem_cons.mp hc with h | h
      · subst h
        exact hm _ _ _ hmc
      · exact ih r1 cap h
    | none =>
      rw [hmc] at hc
      cases cs with
      | nil => simp at hc
      | cons a t => exact ih t cap hc

/-- Every run collected by the isolated-number scan is a digit run of length
3 to 6. -/
theorem isolatedAux_caps :
    ∀ fuel b cs, ∀ r ∈ isolatedAux fuel b cs,
      (∀ c ∈ r, asciiDigit c = true) ∧ 3 ≤ r.length ∧ r.length ≤ 6 := by
  intro fuel
  induction fuel with
  | zero =>
    intro b cs r hr
    simp [isolatedAux] at hr
  | succ n ih =>
    intro b cs r hr
    cases cs with
    | nil => simp [isolatedAux] at hr
    | cons c t =>
      rw [isolatedAux_succ] at hr
      split at hr
      · next hcond =>
        rcases List.mem_cons.mp hr with h | h
        · subst h
          exact ⟨fun c hc => List.mem_takeWhile_imp hc, hcond.2.1, hcond.2.2.1⟩
        · exact ih _ _ _ h
      · exact ih _ _ _ hr

/-- C10 (confirmed): whenever find_check_number returns a value - through any
labeled pattern, the end-of-line pattern, or the unlabeled fallback - that
value consists of decimal digits only, and its length is between 3 and 6
inclusive. -/
theorem c10_result_digits (text r : List Char) (h : parse_check_number text = some r) :
    (∀ c ∈ r, asciiDigit c = true) ∧ 3 ≤ r.length ∧ r.length ≤ 6 := by
  unfold parse_check_number at h
  cases h1 : firstCap3 (findallP1 text) with
  | some m =>
    rw [h1] at h
    cases Option.some.inj h
    exact findallAux_caps _ (fun cs cap rest hc => matchP1At_cap hc) _ _ _
      (List.mem_of_find?_eq_some h1)
  | none =>
    rw [h1] at h
    cases h2 : firstCap3 (findallP2 text) with
    | some m =>
      rw [h2] at h
      cases Option.some.inj h
      exact findallAux_caps _ (fun cs cap rest hc => matchP2At_cap hc) _ _ _
        (List.mem_of_find?_eq_some h2)
    | none =>
      rw [h2] at h
      cases h3 : firstCap3 (findallP3 text) with
      | some m =>
        rw [h3] at h
        cases Option.some.inj h
        exact findallAux_caps _ (fun cs cap rest hc => matchP3At_cap hc) _ _ _
          (List.mem_of_find?_eq_some h3)
      | none =>
        rw [h3] at h
        cases h4 : firstCap3 (findallP4 text) with
        | some m =>
          rw [h4] at h
          cases Option.some.inj h
          exact findallAux_caps _ (fun cs cap rest hc => matchP4At_cap hc) _ _ _
            (List.mem_of_find?_eq_some h4)
        | none =>
          rw [h4] at h
          have hmem := List.mem_of_find?_eq_some h
          have hp := List.find?_some h
          have hspec := isolatedAux_caps _ _ _ _ hmem
          simp only [Bool.and_eq_true, decide_eq_true_eq] at hp
          exact ⟨hspec.1, by omega, by omega⟩

/-- Witness for C10 at a labeled text. -/
theorem c10_result_digits_witness :
    parse_check_number (strL "Check #004521") = some (strL "004521") ∧
    ((∀ c ∈ strL "004521", asciiDigit c = true) ∧
     3 ≤ (strL "004521").length ∧ (strL "004521").length ≤ 6) :=
  ⟨by decide, c10_result_digits (strL "Check #004521") (strL "004521") (by decide)⟩

/-! ## Sanitizer lemmas -/

/-- The head of a dropWhile result does not satisfy the dropped predicate. -/
theorem dropWhile_head_false (p : Char → Bool) :
    ∀ (l : List Char) (c : Char), (l.dropWhile p).head? = some c → p c = false := by
  intro l
  induction l with
  | nil =>
    intro c hc
    simp at hc
  | cons a t ih =>
    intro c hc
    rw [List.dropWhile_cons] at hc
    split at hc
    · exact ih c hc
    · next ha =>
      rw [List.head?_cons] at hc
      cases Option.some.inj hc
      exact Bool.not_eq_true _ ▸ ha

/-- A list whose head does not satisfy the predicate is unchanged by
dropWhile. -/
theorem dropWhile_eq_self_of_head (p : Char → Bool) (l : List Char)
    (h : ∀ c, l.head? = some c → p c = false) : l.dropWhile p = l := by
  cases l with
  | nil => rfl
  | cons a t =>
    rw [List.dropWhile_cons, if_neg]
    simp [h a rfl]

/-- Membership in the trimmed list implies membership in the original. -/
theorem mem_stripUnderscores {l : List Char} {c : Char} (h : c ∈ stripUnderscores l) :
    c ∈ l := by
  unfold stripUnderscores at h
  rw [List.mem_reverse] at h
  have h2 : c ∈ (l.dropWhile (fun c => c == '_')).reverse :=
    (List.dropWhile_sublist _).mem h
  rw [List.mem_reverse] at h2
  exact (List.dropWhile_sublist _).mem h2

/-- The head of the trimmed list is not an underscore. -/
theorem head?_stripUnderscores (l : List Char) (c : Char)
    (hc : (stripUnderscores l).head? = some c) : (c == '_') = false := by
  unfold stripUnderscores at hc
  have hdec : l.dropWhile (fun c => c == '_') =
      ((l.dropWhile (fun c => c == '_')).reverse.dropWhile (fun c => c == '_')).reverse ++
      ((l.dropWhile (fun c => c == '_')).reverse.takeWhile (fun c => c == '_')).reverse := by
    rw [← List.reverse_append, List.takeWhile_append_dropWhile, List.reverse_reverse]
  have hhead : (l.dropWhile (fun c => c == '_')).head? = some c := by
    rw [hdec]
    cases hl : ((l.dropWhile (fun c => c == '_')).reverse.dropWhile
        (fun c => c == '_')).reverse with
    | nil => rw [hl] at hc; simp at hc
    | cons d ds =>
      rw [hl] at hc
      rw [List.cons_append, List.head?_cons]
      rw [List.head?_cons] at hc
      exact hc
  exact dropWhile_head_false (fun c => c == '_') _ _ hhead

/-- The last element of the trimmed list is not an underscore. -/
theorem getLast?_stripUnderscores (l : List Char) (c : Char)
    (hc : (stripUnderscores l).getLast? = some c) : (c == '_') = false := by
  unfold stripUnderscores at hc
  rw [List.getLast?_reverse] at hc
  exact dropWhile_head_false (fun c => c == '_') _ _ hc

/-- A list with no leading and no trailing underscore is unchanged by the
trim. -/
theorem stripUnderscores_eq_self (l : List Char)
    (h1 : ∀ c, l.head? = some c → (c == '_') = false)
    (h2 : ∀ c, l.getLast? = some c → (c == '_') = false) :
    stripUnderscores l = l := by
  unfold stripUnderscores
  rw [dropWhile_eq_self_of_head _ _ h1]
  rw [dropWhile_eq_self_of_head _ _ (fun c hc => h2 c (by rwa [List.head?_reverse] at hc))]
  rw [List.reverse_reverse]

/-- Every element the underscore-collapse emits is an underscore or an
original non-whitespace element. -/
theorem underscoreAux_mem :
    ∀ (l : List Char) (b : Bool) (c : Char), c ∈ underscoreAux b l →
      c = '_' ∨ (c ∈ l ∧ pySpace c = false) := by
  intro l
  induction l with
  | nil =>
    intro b c hc
    simp [underscoreAux] at hc
  | cons a t ih =>
    intro b c hc
    unfold underscoreAux at hc
    split at hc
    · next ha =>
      split at hc
      · rcases ih _ _ hc with h | ⟨hm, hs⟩
        · exact Or.inl h
        · exact Or.inr ⟨List.mem_cons_of_mem _ hm, hs⟩
      · rcases List.mem_cons.mp hc with h | h
        · exact Or.inl h
        · rcases ih _ _ h with h2 | ⟨hm, hs⟩
          · exact Or.inl h2
          · exact Or.inr ⟨List.mem_cons_of_mem _ hm, hs⟩
    · next ha =>
      rcases List.mem_cons.mp hc with h | h
      · subst h
        exact Or.inr ⟨List.mem_cons_self _ _, Bool.not_eq_true _ ▸ ha⟩
      · rcases ih _ _ h with h2 | ⟨hm, hs⟩
        · exact Or.inl h2
        · exact Or.inr ⟨List.mem_cons_of_mem _ hm, hs⟩

/-- The underscore-collapse leaves a whitespace-free list unchanged. -/
theorem underscoreAux_no_space :
    ∀ (l : List Char), (∀ c ∈ l, pySpace c = false) → ∀ b, underscoreAux b l = l := by
  intro l
  induction l with
  | nil =>
    intro _ b
    rfl
  | cons a t ih =>
    intro h b
    unfold underscoreAux
    rw [if_neg (by simp [h a (List.mem_cons_self _ _)])]
    rw [ih (fun c hc => h c (List.mem_cons_of_mem _ hc)) false]

/-- Every character of a sanitized string is a kept, non-whitespace
character. -/
theorem sanitize_chars (x : List Char) :
    ∀ c ∈ sanitize x, keepChar c = true ∧ pySpace c = false := by
  intro c hc
  have hc2 : c ∈ underscoreAux false (x.filter keepChar) := mem_stripUnderscores hc
  rcases underscoreAux_mem _ _ _ hc2 with h | ⟨hmem, hsp⟩
  · subst h
    exact ⟨by decide, by decide⟩
  · exact ⟨List.of_mem_filter hmem, hsp⟩

/-! ## Claim C7 -/

/-- C7 (confirmed): the filename sanitizer is idempotent - sanitizing an
already-sanitized string changes nothing, because its characters all survive
the filter, none is whitespace, and no underscore remains at either end. -/
theorem c7_sanitize_idempotent (x : List Char) : sanitize (sanitize x) = sanitize x := by
  have hchars := sanitize_chars x
  conv_lhs => rw [sanitize]
  rw [List.filter_eq_self.mpr (fun c hc => (hchars c hc).1)]
  rw [underscoreAux_no_space _ (fun c hc => (hchars c hc).2) false]
  exact stripUnderscores_eq_self _
    (fun c hc => head?_stripUnderscores _ _ hc)
    (fun c hc => getLast?_stripUnderscores _ _ hc)

/-! ## Claim C8 -/

/-- Character class of the claim: `[A-Za-z0-9_-]`. -/
def asciiSafeClaim (c : Char) : Bool :=
  asciiAlpha c || asciiDigit c || c.toNat == 95 || c.toNat == 45

/-- C8 counterexample: on the one-character input é, the sanitizer returns é
unchanged (the Python word class keeps every Unicode letter), which is outside
`[A-Za-z0-9_-]`. -/
theorem c8_sanitizer_cex :
    sanitize ['é'] = ['é'] ∧ asciiSafeClaim 'é' = false := by decide

/-- C8 (corrected): for every input string, the sanitizer's output has no
leading or trailing underscore, and every output character is a word character
in Python's Unicode-aware sense (which includes non-ASCII letters such as é,
not only `[A-Za-z0-9_]`) or a hyphen. -/
theorem c8_sanitizer_output (x : List Char) :
    (∀ c ∈ sanitize x, (isWordChar c || c.toNat == 45) = true) ∧
    (sanitize x).head? ≠ some '_' ∧ (sanitize x).getLast? ≠ some '_' := by
  refine ⟨?_, ?_, ?_⟩
  · intro c hc
    have ⟨hk, hs⟩ := sanitize_chars x c hc
    simp only [keepChar, Bool.or_eq_true] at hk
    rcases hk with (h | h) | h
    · simp [h]
    · rw [h] at hs
      exact absurd hs (by simp)
    · simp [h]
  · intro h
    have := head?_stripUnderscores _ _ h
    simp at this
  · intro h
    have := getLast?_stripUnderscores _ _ h
    simp at this

/-! ## Letter-case invariance of the payee extractor

The matching decisions of the payee patterns depend only on the lowercased
input, and the post-processing (strip, collapse, title) produces the same
output on an input and on its lowercasing.  Hence parse_writer_name is
invariant under lowercasing the text. -/

/-- Specification of the whitespace class through code points. -/
theorem pySpace_iff (c : Char) :
    pySpace c = true ↔ (c.toNat = 32 ∨ c.toNat = 9 ∨ c.toNat = 10 ∨ c.toNat = 11 ∨
      c.toNat = 12 ∨ c.toNat = 13 ∨ c.toNat = 28 ∨ c.toNat = 29 ∨ c.toNat = 30 ∨
      c.toNat = 31 ∨ c.toNat = 133 ∨ c.toNat = 160) := by
  simp only [pySpace, Bool.or_eq_true, beq_iff_eq]
  tauto

/-- Specification of the ASCII-letter class through code points. -/
theorem asciiAlpha_iff (c : Char) :
    asciiAlpha c = true ↔ ((65 ≤ c.toNat ∧ c.toNat ≤ 90) ∨ (97 ≤ c.toNat ∧ c.toNat ≤ 122)) := by
  simp [asciiAlpha, Bool.or_eq_true, Bool.and_eq_true, decide_eq_true_eq]

/-- Specification of the colon-or-whitespace class through code points. -/
theorem colonWs_iff (c : Char) :
    colonWs c = true ↔ (c.toNat = 58 ∨ pySpace c = true) := by
  simp [colonWs, Bool.or_eq_true, beq_iff_eq]

/-- Lowercasing does not change membership in the whitespace class. -/
theorem pySpace_toLower (c : Char) : pySpace (Char.toLower c) = pySpace c := by
  rw [Bool.eq_iff_iff, pySpace_iff, pySpace_iff, toNat_toLower]
  by_cases h : 65 ≤ c.toNat ∧ c.toNat ≤ 90
  · rw [if_pos h]
    constructor <;> (intro hx; omega)
  · rw [if_neg h]

/-- Lowercasing does not change membership in the letter class. -/
theorem asciiAlpha_toLower (c : Char) : asciiAlpha (Char.toLower c) = asciiAlpha c := by
  rw [Bool.eq_iff_iff, asciiAlpha_iff, asciiAlpha_iff, toNat_toLower]
  by_cases h : 65 ≤ c.toNat ∧ c.toNat ≤ 90
  · rw [if_pos h]
    constructor <;> (intro hx; omega)
  · rw [if_neg h]

/-- Lowercasing does not change membership in the colon-or-whitespace
class. -/
theorem colonWs_toLower (c : Char) : colonWs (Char.toLower c) = colonWs c := by
  rw [Bool.eq_iff_iff, colonWs_iff, colonWs_iff, pySpace_toLower, toNat_toLower]
  by_cases h : 65 ≤ c.toNat ∧ c.toNat ≤ 90
  · rw [if_pos h]
    have h32 : pySpace c = false := by
      rw [← Bool.not_eq_true]
      rw [pySpace_iff]
      omega
    rw [h32]
    constructor <;> (intro hx; rcases hx with hx | hx; omega; simp at hx)
  · rw [if_neg h]

/-- Lowercasing does not change membership in the payee capture class. -/
theorem payeeClass_toLower (c : Char) : payeeClass (Char.toLower c) = payeeClass c := by
  unfold payeeClass
  rw [asciiAlpha_toLower, pySpace_toLower]

/-- Lowercasing fixes non-letters. -/
theorem toLower_eq_self (c : Char) (h : asciiAlpha c = false) : Char.toLower c = c := by
  apply charEq_of_toNat
  rw [toNat_toLower, if_neg]
  intro hc
  rw [← Bool.not_eq_true, asciiAlpha_iff] at h
  omega

/-- Lowercasing respects the case-insensitive literal comparison. -/
theorem lowerEq_toLower (c a : Char) : lowerEq (Char.toLower c) a = lowerEq c a := by
  unfold lowerEq
  rw [toLower_idem]

/-- Shorthand for lowercasing a text. -/
def low (l : List Char) : List Char := l.map Char.toLower

theorem low_nil : low [] = [] := rfl

theorem low_cons (c : Char) (t : List Char) : low (c :: t) = Char.toLower c :: low t := rfl

theorem low_isEmpty (l : List Char) : (low l).isEmpty = l.isEmpty := by
  cases l <;> rfl

theorem takeWhile_congr_pred {p q : Char → Bool} (h : ∀ c, p c = q c) (l : List Char) :
    l.takeWhile p = l.takeWhile q := by
  rw [funext h]

theorem dropWhile_congr_pred {p q : Char → Bool} (h : ∀ c, p c = q c) (l : List Char) :
    l.dropWhile p = l.dropWhile q := by
  rw [funext h]

/-- takeWhile with the payee class commutes with lowercasing. -/
theorem takeWhile_payeeClass_low (l : List Char) :
    (low l).takeWhile payeeClass = low (l.takeWhile payeeClass) := by
  unfold low
  rw [List.takeWhile_map]
  rw [show (payeeClass ∘ Char.toLower) = payeeClass from funext fun c => payeeClass_toLower c]

/-- takeWhile with the colon-or-whitespace class commutes with lowercasing. -/
theorem takeWhile_colonWs_low (l : List Char) :
    (low l).takeWhile colonWs = low (l.takeWhile colonWs) := by
  unfold low
  rw [List.takeWhile_map]
  rw [show (colonWs ∘ Char.toLower) = colonWs from funext fun c => colonWs_toLower c]

/-- dropWhile with the colon-or-whitespace class commutes with lowercasing. -/
theorem dropWhile_colonWs_low (l : List Char) :
    (low l).dropWhile colonWs = low (l.dropWhile colonWs) := by
  unfold low
  rw [List.dropWhile_map]
  rw [show (colonWs ∘ Char.toLower) = colonWs from funext fun c => colonWs_toLower c]

/-- dropWhile with the whitespace class commutes with lowercasing. -/
theorem dropWhile_pySpace_low (l : List Char) :
    (low l).dropWhile pySpace = low (l.dropWhile pySpace) := by
  unfold low
  rw [List.dropWhile_map]
  rw [show (pySpace ∘ Char.toLower) = pySpace from funext fun c => pySpace_toLower c]

/-- Case-insensitive literal matching commutes with lowercasing. -/
theorem matchLitCI_low (w : List Char) :
    ∀ cs, matchLitCI w (low cs) = (matchLitCI w cs).map low := by
  induction w with
  | nil =>
    intro cs
    rfl
  | cons a ws ih =>
    intro cs
    cases cs with
    | nil => rfl
    | cons c t =>
      rw [low_cons]
      show (if lowerEq (Char.toLower c) a then matchLitCI ws (low t) else none) = _
      rw [lowerEq_toLower]
      by_cases h : lowerEq c a = true
      · rw [if_pos h, ih t]
        show _ = (if lowerEq c a then matchLitCI ws t else none).map low
        rw [if_pos h]
      · rw [if_neg h]
        show _ = (if lowerEq c a then matchLitCI ws t else none).map low
        rw [if_neg h]
        rfl

/-- Whitespace-run matching commutes with lowercasing. -/
theorem matchWs1_low (cs : List Char) : matchWs1 (low cs) = (matchWs1 cs).map low := by
  cases cs with
  | nil => rfl
  | cons c t =>
    rw [low_cons]
    show (if pySpace (Char.toLower c) then some ((low t).dropWhile pySpace) else none) = _
    rw [pySpace_toLower]
    by_cases h : pySpace c = true
    · rw [if_pos h]
      show _ = (if pySpace c then some (t.dropWhile pySpace) else none).map low
      rw [if_pos h, dropWhile_pySpace_low]
      rfl
    · rw [if_neg h]
      show _ = (if pySpace c then some (t.dropWhile pySpace) else none).map low
      rw [if_neg h]
      rfl

/-- The backtracking index depends only on the lowercased run. -/
theorem btIndex_low (run : List Char) : btIndex (low run) = btIndex run := by
  unfold btIndex
  unfold low
  rw [List.length_map]
  have hfun : (fun n => decide (1 ≤ n) && payeeClass ((run.map Char.toLower).getD n ':')) =
      (fun n => decide (1 ≤ n) && payeeClass (run.getD n ':')) := by
    funext n
    have hd : (run.map Char.toLower).getD n ':' = Char.toLower (run.getD n ':') :=
      List.getD_map run ':' Char.toLower
    rw [hd, payeeClass_toLower]
  rw [hfun]

/-- The head test of the capture group is invariant under lowercasing. -/
theorem head_elim_low (l : List Char) :
    (low l).head?.elim false payeeClass = l.head?.elim false payeeClass := by
  cases l with
  | nil => rfl
  | cons c t =>
    rw [low_cons]
    show payeeClass (Char.toLower c) = payeeClass c
    exact payeeClass_toLower c

/-- The payee capture tail commutes with lowercasing. -/
theorem matchPayeeTail_low (cs : List Char) :
    matchPayeeTail (low cs) = (matchPayeeTail cs).map low := by
  unfold matchPayeeTail
  simp only
  rw [takeWhile_colonWs_low, dropWhile_colonWs_low, low_isEmpty, head_elim_low, btIndex_low]
  by_cases h1 : (cs.takeWhile colonWs).isEmpty = true
  · rw [if_pos h1, if_pos h1]
    rfl
  · rw [if_neg h1, if_neg h1]
    by_cases h2 : (cs.dropWhile colonWs).head?.elim false payeeClass = true
    · rw [if_pos h2, if_pos h2, takeWhile_payeeClass_low]
      rfl
    · rw [if_neg h2, if_neg h2]
      cases hbt : btIndex (cs.takeWhile colonWs) with
      | none => rfl
      | some n =>
        show some (((low (cs.takeWhile colonWs)).drop n ++
            low (cs.dropWhile colonWs)).takeWhile payeeClass) = _
        have hda : (low (cs.takeWhile colonWs)).drop n ++ low (cs.dropWhile colonWs) =
            low ((cs.takeWhile colonWs).drop n ++ cs.dropWhile colonWs) := by
          unfold low
          rw [List.map_append, List.map_drop]
        rw [hda, takeWhile_payeeClass_low]
        rfl

/-- Lifting step: a bind whose continuations agree through lowercasing. -/
theorem bind_low_step {f g : List Char → Option (List Char)}
    (step : Option (List Char))
    (hfg : ∀ r, f (low r) = (g r).map low) :
    ((step.map low).bind f) = (step.bind g).map low := by
  cases step with
  | none => rfl
  | some r =>
    show f (low r) = (g r).map low
    exact hfg r

/-- The first payee pattern commutes with lowercasing. -/
theorem matchPay1At_low (cs : List Char) : matchPay1At (low cs) = (matchPay1At cs).map low := by
  unfold matchPay1At
  rw [matchLitCI_low]
  apply bind_low_step
  intro r1
  rw [matchWs1_low]
  apply bind_low_step
  intro r2
  rw [matchLitCI_low]
  apply bind_low_step
  intro r3
  rw [matchWs1_low]
  apply bind_low_step
  intro r4
  rw [matchLitCI_low]
  apply bind_low_step
  intro r5
  rw [matchWs1_low]
  apply bind_low_step
  intro r6
  rw [matchLitCI_low]
  apply bind_low_step
  intro r7
  rw [matchWs1_low]
  apply bind_low_step
  intro r8
  rw [matchLitCI_low]
  apply bind_low_step
  intro r9
  exact matchPayeeTail_low r9

/-- The Payable-to pattern commutes with lowercasing. -/
theorem matchPayableAt_low (cs : List Char) :
    matchPayableAt (low cs) = (matchPayableAt cs).map low := by
  unfold matchPayableAt
  rw [matchLitCI_low]
  apply bind_low_step
  intro r1
  rw [matchWs1_low]
  apply bind_low_step
  intro r2
  rw [matchLitCI_low]
  apply bind_low_step
  intro r3
  exact matchPayeeTail_low r3

/-- The search for the first payee pattern commutes with lowercasing. -/
theorem searchPay1_low : ∀ cs, searchPay1 (low cs) = (searchPay1 cs).map low := by
  intro cs
  induction cs with
  | nil => rfl
  | cons c t ih =>
    rw [low_cons]
    have h : matchPay1At (Char.toLower c :: low t) = (matchPay1At (c :: t)).map low := by
      rw [← low_cons]
      exact matchPay1At_low (c :: t)
    show (match matchPay1At (Char.toLower c :: low t) with
          | some cap => some cap
          | none => searchPay1 (low t)) =
         (match matchPay1At (c :: t) with
          | some cap => some cap
          | none => searchPay1 t).map low
    rw [h]
    cases hm : matchPay1At (c :: t) with
    | some cap => rfl
    | none =>
      show searchPay1 (low t) = (searchPay1 t).map low
      exact ih

/-- The search for the Payable-to pattern commutes with lowercasing. -/
theorem searchPayable_low : ∀ cs, searchPayable (low cs) = (searchPayable cs).map low := by
  intro cs
  induction cs with
  | nil => rfl
  | cons c t ih =>
    rw [low_cons]
    have h : matchPayableAt (Char.toLower c :: low t) = (matchPayableAt (c :: t)).map low := by
      rw [← low_cons]
      exact matchPayableAt_low (c :: t)
    show (match matchPayableAt (Char.toLower c :: low t) with
          | some cap => some cap
          | none => searchPayable (low t)) =
         (match matchPayableAt (c :: t) with
          | some cap => some cap
          | none => searchPayable t).map low
    rw [h]
    cases hm : matchPayableAt (c :: t) with
    | some cap => rfl
    | none =>
      show searchPayable (low t) = (searchPayable t).map low
      exact ih

/-- Stripping whitespace commutes with lowercasing. -/
theorem pyStrip_low (l : List Char) : pyStrip (low l) = low (pyStrip l) := by
  unfold pyStrip
  rw [dropWhile_pySpace_low]
  show ((low (l.dropWhile pySpace)).reverse.dropWhile pySpace).reverse = _
  have hrev : (low (l.dropWhile pySpace)).reverse = low ((l.dropWhile pySpace).reverse) := by
    unfold low
    rw [List.map_reverse]
  rw [hrev, dropWhile_pySpace_low]
  unfold low
  rw [List.map_reverse]

/-- Whitespace collapsing commutes with lowercasing. -/
theorem collapseSpaceAux_low : ∀ (l : List Char) (b : Bool),
    collapseSpaceAux b (low l) = low (collapseSpaceAux b l) := by
  intro l
  induction l with
  | nil =>
    intro b
    rfl
  | cons c t ih =>
    intro b
    rw [low_cons]
    show (if pySpace (Char.toLower c) then
            (if b then collapseSpaceAux true (low t)
             else ' ' :: collapseSpaceAux true (low t))
          else Char.toLower c :: collapseSpaceAux false (low t)) = _
    rw [pySpace_toLower]
    by_cases h : pySpace c = true
    · rw [if_pos h]
      show _ = low (if pySpace c then
          (if b then collapseSpaceAux true t else ' ' :: collapseSpaceAux true t)
          else c :: collapseSpaceAux false t)
      rw [if_pos h]
      cases b with
      | true =>
        rw [if_pos rfl, if_pos rfl]
        exact ih true
      | false =>
        rw [if_neg (by simp), if_neg (by simp)]
        rw [low_cons, ih true]
        rfl
    · rw [if_neg h]
      show _ = low (if pySpace c then
          (if b then collapseSpaceAux true t else ' ' :: collapseSpaceAux true t)
          else c :: collapseSpaceAux false t)
      rw [if_neg h, low_cons, ih false]

/-- Title-casing yields the same output on a text and on its lowercasing. -/
theorem titleAux_low : ∀ (l : List Char) (b : Bool),
    titleAux b (low l) = titleAux b l := by
  intro l
  induction l with
  | nil =>
    intro b
    rfl
  | cons c t ih =>
    intro b
    rw [low_cons]
    show (if asciiAlpha (Char.toLower c) then
            (if b then (Char.toLower c).toLower else (Char.toLower c).toUpper) ::
              titleAux true (low t)
          else Char.toLower c :: titleAux false (low t)) =
         (if asciiAlpha c then
            (if b then c.toLower else c.toUpper) :: titleAux true t
          else c :: titleAux false t)
    rw [asciiAlpha_toLower]
    by_cases h : asciiAlpha c = true
    · rw [if_pos h, if_pos h, toLower_idem, toUpper_toLower, ih true]
    · rw [if_neg h, if_neg h, ih false, toLower_eq_self c (Bool.not_eq_true _ ▸ h)]

/-- The payee post-processing yields the same output on a capture and on its
lowercasing. -/
theorem postprocessName_low (cap : List Char) :
    postprocessName (low cap) = postprocessName cap := by
  unfold postprocessName
  rw [pyStrip_low, collapseSpaceAux_low, titleAux_low]

/-- parse_writer_name is invariant under lowercasing the text. -/
theorem parse_writer_name_low (text : List Char) :
    parse_writer_name (low text) = parse_writer_name text := by
  unfold parse_writer_name
  rw [searchPay1_low, searchPayable_low]
  cases searchPay1 text with
  | some cap =>
    show some (postprocessName (low cap)) = some (postprocessName cap)
    rw [postprocessName_low]
  | none =>
    cases searchPayable text with
    | some cap =>
      show some (postprocessName (low cap)) = some (postprocessName cap)
      rw [postprocessName_low]
    | none => rfl

/-! ## Claim C1 -/

/-- The lowercased anchor phrase of the claim. -/
def lowPhrase : List Char := strL "pay to the order of: john smith"

/-- C1 counterexample: the text is the phrase followed by a space and Jr, so
it contains the phrase verbatim, yet find_payee returns John Smith Jr: the
capture group takes every following letter or whitespace, not just the
phrase's name. -/
theorem c1_payee_cex :
    parse_writer_name (strL "Pay to the order of: John Smith" ++ strL " Jr")
      = some (strL "John Smith Jr") ∧
    some (strL "John Smith Jr") ≠ some (strL "John Smith") := by decide

/-- The scan skips every position of a block containing no letter p. -/
theorem searchPay1_skip : ∀ (q t : List Char),
    (∀ c ∈ q, (Char.toLower c == 'p') = false) →
    searchPay1 (q ++ t) = searchPay1 t := by
  intro q
  induction q with
  | nil =>
    intro t _
    rfl
  | cons a q' ih =>
    intro t hq
    rw [List.cons_append]
    have hfail : matchPay1At (a :: (q' ++ t)) = none := by
      unfold matchPay1At
      show (matchLitCI ['p', 'a', 'y'] (a :: (q' ++ t))).bind _ = none
      have : matchLitCI ['p', 'a', 'y'] (a :: (q' ++ t)) = none := by
        show (if lowerEq a 'p' then matchLitCI ['a', 'y'] (q' ++ t) else none) = none
        rw [if_neg]
        rw [show lowerEq a 'p' = (Char.toLower a == 'p') from rfl]
        simp [hq a (List.mem_cons_self _ _)]
      rw [this]
      rfl
    show (match matchPay1At (a :: (q' ++ t)) with
          | some cap => some cap
          | none => searchPay1 (q' ++ t)) = searchPay1 t
    rw [hfail]
    exact ih t (fun c hc => hq c (List.mem_cons_of_mem _ hc))

/-- At the lowercased phrase, the scan matches at once and captures john
smith together with the following letters and whitespace. -/
theorem searchPay1_at_phrase (u : List Char) :
    searchPay1 (lowPhrase ++ u) =
      some (strL "john smith" ++ u.takeWhile payeeClass) := rfl

/-- C1 (corrected): find_payee maps a text of the shape p ++ v ++ s to
John Smith whenever v is the phrase Pay to the order of: John Smith in any
letter case, the text before it contains no letter p (so no payee anchor can
match earlier), and the text after it does not start with a letter or
whitespace (so the capture group stops right after Smith). -/
theorem c1_payee_phrase (p v s : List Char)
    (hp : ∀ c ∈ p, (Char.toLower c == 'p') = false)
    (hv : v.map Char.toLower = lowPhrase)
    (hs : s.takeWhile payeeClass = []) :
    parse_writer_name (p ++ v ++ s) = some (strL "John Smith") := by
  rw [← parse_writer_name_low]
  unfold low
  rw [List.map_append, List.map_append, hv, List.append_assoc]
  have hp' : ∀ c ∈ p.map Char.toLower, (Char.toLower c == 'p') = false := by
    intro c hc
    rw [List.mem_map] at hc
    obtain ⟨c0, hc0, rfl⟩ := hc
    rw [toLower_idem]
    exact hp c0 hc0
  unfold parse_writer_name
  rw [searchPay1_skip (p.map Char.toLower) (lowPhrase ++ s.map Char.toLower) hp']
  rw [searchPay1_at_phrase (s.map Char.toLower)]
  have hs' : (s.map Char.toLower).takeWhile payeeClass = [] := by
    have h := takeWhile_payeeClass_low s
    unfold low at h
    rw [h, hs]
    rfl
  rw [hs', List.append_nil]
  show some (postprocessName (strL "john smith")) = some (strL "John Smith")
  decide

/-- Witness for C1 on a mixed-case instance of the phrase with empty
surroundings. -/
theorem c1_payee_phrase_witness :
    (∀ c ∈ ([] : List Char), (Char.toLower c == 'p') = false) ∧
    (strL "PAY to the ORDER of: John Smith").map Char.toLower = lowPhrase ∧
    ([] : List Char).takeWhile payeeClass = [] ∧
    parse_writer_name ([] ++ strL "PAY to the ORDER of: John Smith" ++ []) =
      some (strL "John Smith") :=
  ⟨by simp, by decide, by decide,
   c1_payee_phrase [] (strL "PAY to the ORDER of: John Smith") []
     (by simp) (by decide) (by decide)⟩
